import Mathlib

/-!
Verification of the camera state machine in npbg (src/npbg/gl/camera.py).

The module defines two classes:

* CollisionDetector — wraps an fcl spatial index built from a point cloud and
  answers a density-based collision query for a probe sphere.
* PositionalCamera — a first-person camera controller: it owns a 4x4 view
  matrix (rotation block and translation column), a velocity accumulated from
  key press/release events, and per-frame integration gated by the detector.

We embed the class shallowly: the mutable Python object becomes a structure,
each method becomes a function returning the updated structure (and the
method's return value where it has one).  Float arithmetic is modelled by
exact real arithmetic (rationals for the collision threshold computation,
which only compares smallish integers against fixed constants, so the exact
and floating-point outcomes coincide).  The external fcl and scipy calls are
modelled at their documented mathematical meaning: the contact count returned
by fcl.collide is an abstract function of the probe position, bounded by the
requested contact cap, and scipy rotation-vector matrices about the x and y
axes are the standard rotation matrices.
-/

open Matrix

abbrev Vec3 := Fin 3 → ℝ
abbrev Mat3 := Matrix (Fin 3) (Fin 3) ℝ

/-! ### GLFW key codes (values from glfw3.h, imported as glumpy.ext.glfw) -/

def GLFW_KEY_UNKNOWN : ℤ := -1
def GLFW_KEY_SPACE : ℤ := 32
def GLFW_KEY_A : ℤ := 65
def GLFW_KEY_D : ℤ := 68
def GLFW_KEY_S : ℤ := 83
def GLFW_KEY_W : ℤ := 87
def GLFW_KEY_LEFT_SHIFT : ℤ := 340

/-! ### CollisionDetector -/

/-- The probe sphere radius, local constant in CollisionDetector.collision
(radius = 0.05 in the source; 1/20 exactly). -/
def CollisionDetector.radius : ℚ := 1 / 20

/-- The density threshold, local constant in CollisionDetector.collision
(threshold = 1000 in the source). -/
def CollisionDetector.threshold : ℚ := 1000

/-- The contact cap passed to fcl.CollisionRequest:
math.ceil(threshold * radius) in the source. -/
def CollisionDetector.num_max_contacts : ℕ :=
  Nat.ceil (CollisionDetector.threshold * CollisionDetector.radius)

/-- The CollisionDetector after construction.  The fcl BVH index and
fcl.collide are external library code; we model the result of
fcl.collide(model, sphere-at-p, CollisionRequest(num_max_contacts)) as an
abstract contact-count function of the probe sphere's center, together with
the guarantee (from the request) that the returned count never exceeds the
requested cap. -/
structure CollisionDetector where
  contacts : Vec3 → ℕ
  contacts_le : ∀ p, contacts p ≤ CollisionDetector.num_max_contacts

/-- Modelled from the spec: construction of the fcl spatial index (external
fcl library; only its call site is in src) is fatal when the point set is
empty — the source comment records a segmentation fault when no triangle is
supplied, and with an empty point cloud the degenerate-triangle list
[(i, i, i) for i in range(scene_size)] is empty.  We model construction as
fallible, failing exactly on an empty point set. -/
def CollisionDetector.init (scene_points : List Vec3)
    (contactsOf : { l : List Vec3 // l ≠ [] } → CollisionDetector) :
    Except String CollisionDetector :=
  match scene_points with
  | [] => Except.error "fcl BVH construction failed: empty point set"
  | p :: ps => Except.ok (contactsOf ⟨p :: ps, List.cons_ne_nil p ps⟩)

/-- CollisionDetector.collision(x, dx): place a sphere of radius 0.05 at
x + dx, count contacts against the indexed geometry (capped at
num_max_contacts), and report a collision when count / radius >= threshold. -/
def CollisionDetector.collision (cd : CollisionDetector) (x dx : Vec3) : Bool :=
  decide ((cd.contacts (x + dx) : ℚ) / CollisionDetector.radius ≥
    CollisionDetector.threshold)

/-! ### PositionalCamera -/

/-- The _velocity_delta dictionary: the camera-local unit direction vector
bound to each movement key, none for unbound keys. -/
noncomputable def velocity_delta (key : ℤ) : Option Vec3 :=
  if key = GLFW_KEY_W then some ![0, 0, -1]
  else if key = GLFW_KEY_A then some ![-1, 0, 0]
  else if key = GLFW_KEY_S then some ![0, 0, 1]
  else if key = GLFW_KEY_D then some ![1, 0, 0]
  else if key = GLFW_KEY_SPACE then some ![0, 1, 0]
  else if key = GLFW_KEY_LEFT_SHIFT then some ![0, -1, 0]
  else none

/-- The key set of the _pressed (and _velocity_delta) dictionaries. -/
def boundKeys : Finset ℤ :=
  {GLFW_KEY_W, GLFW_KEY_A, GLFW_KEY_S, GLFW_KEY_D, GLFW_KEY_SPACE,
    GLFW_KEY_LEFT_SHIFT}

/-- The state of a PositionalCamera.  _pose is stored as its rotation block
_pose[:3, :3] and translation column _pose[:3, 3]; the bottom row is never
read or written by the class. -/
structure PositionalCamera where
  cd : CollisionDetector
  rotation : Mat3
  translation : Vec3
  rotation_base : Mat3
  size : ℝ × ℝ
  speed : ℝ
  velocity : Vec3
  pressed : ℤ → Bool

/-- PositionalCamera.__init__: rotation base is a snapshot of the initial
rotation block, velocity starts at zero, no key is pressed. -/
def PositionalCamera.init (cd : CollisionDetector) (poseR : Mat3)
    (poseT : Vec3) (size : ℝ × ℝ) (speed : ℝ) : PositionalCamera :=
  { cd := cd
    rotation := poseR
    translation := poseT
    rotation_base := poseR
    size := size
    speed := speed
    velocity := fun _ => 0
    pressed := fun _ => false }

/-- The _replace_shift decorator: an unknown key code is converted to the
left shift key before the wrapped handler runs. -/
def replace_shift (key : ℤ) : ℤ :=
  if key = GLFW_KEY_UNKNOWN then GLFW_KEY_LEFT_SHIFT else key

/-- scipy.spatial.transform.Rotation.from_rotvec([0, a, 0]).as_matrix():
the rotation about the y axis by angle a. -/
noncomputable def rotY (a : ℝ) : Mat3 :=
  !![Real.cos a, 0, Real.sin a;
     0, 1, 0;
     -Real.sin a, 0, Real.cos a]

/-- scipy.spatial.transform.Rotation.from_rotvec([a, 0, 0]).as_matrix():
the rotation about the x axis by angle a. -/
noncomputable def rotX (a : ℝ) : Mat3 :=
  !![1, 0, 0;
     0, Real.cos a, -Real.sin a;
     0, Real.sin a, Real.cos a]

/-- PositionalCamera.motion(point): overwrite the rotation block of the pose
with rotation_base @ yaw_mat @ pitch_mat, where
yaw = pi - pi * 2 * point[0] / size[0] and
pitch = pi / 2 - pi * point[1] / size[1]. -/
noncomputable def PositionalCamera.motion (c : PositionalCamera)
    (point : ℝ × ℝ) : PositionalCamera :=
  { c with rotation :=
      c.rotation_base *
        rotY (Real.pi - Real.pi * 2 * point.1 / c.size.1) *
        rotX (Real.pi / 2 - Real.pi * point.2 / c.size.2) }

/-- PositionalCamera.pose(dt): dx = rotation @ (velocity * dt); the
translation is advanced by dx unless the collision query at the candidate
position vetoes it; the (possibly updated) pose is returned, which in this
embedding is the updated camera state itself. -/
noncomputable def PositionalCamera.pose (c : PositionalCamera)
    (dt : ℝ) : PositionalCamera :=
  let dx := c.rotation.mulVec (fun i => c.velocity i * dt)
  if c.cd.collision c.translation dx then c
  else { c with translation := c.translation + dx }

/-- PositionalCamera.press(key) (wrapped by _replace_shift): returns the
updated camera and the boolean result.  Unbound key: False, no change.
Bound key not currently pressed: add speed-scaled direction to velocity and
set the flag; bound key already pressed: no change; both return True. -/
noncomputable def PositionalCamera.press (c : PositionalCamera)
    (key0 : ℤ) : PositionalCamera × Bool :=
  let key := replace_shift key0
  match velocity_delta key with
  | none => (c, false)
  | some delta =>
    if c.pressed key then (c, true)
    else
      ({ c with
          velocity := fun i => c.velocity i + delta i * c.speed
          pressed := fun k => if k = key then true else c.pressed k }, true)

/-- PositionalCamera.release(key) (wrapped by _replace_shift): symmetric to
press, subtracting the speed-scaled direction when the flag was set. -/
noncomputable def PositionalCamera.release (c : PositionalCamera)
    (key0 : ℤ) : PositionalCamera × Bool :=
  let key := replace_shift key0
  match velocity_delta key with
  | none => (c, false)
  | some delta =>
    if c.pressed key then
      ({ c with
          velocity := fun i => c.velocity i - delta i * c.speed
          pressed := fun k => if k = key then false else c.pressed k }, true)
    else (c, true)

/-- PositionalCamera.resize(size): overwrite the stored window size. -/
def PositionalCamera.resize (c : PositionalCamera)
    (size : ℝ × ℝ) : PositionalCamera :=
  { c with size := size }

/-! ### Event sequences -/

/-- One externally driven call on the camera. -/
inductive Event where
  | press (key : ℤ)
  | release (key : ℤ)
  | motion (p : ℝ × ℝ)
  | resize (s : ℝ × ℝ)
  | advance (dt : ℝ)

/-- Apply one event to the camera state. -/
noncomputable def PositionalCamera.step (c : PositionalCamera) :
    Event → PositionalCamera
  | Event.press k => (c.press k).1
  | Event.release k => (c.release k).1
  | Event.motion p => c.motion p
  | Event.resize s => c.resize s
  | Event.advance dt => c.pose dt

/-- Apply a sequence of events to the camera state. -/
noncomputable def PositionalCamera.run (c : PositionalCamera)
    (es : List Event) : PositionalCamera :=
  es.foldl PositionalCamera.step c

/-- The camera-local direction vector of a bound key (zero for unbound
keys); used to state the velocity invariant. -/
noncomputable def directionOf (key : ℤ) : Vec3 :=
  (velocity_delta key).getD (fun _ => 0)

/-- The number of net unmatched presses after a sequence of press (true) and
release (false) events on a single key, starting from the not-held state: a
press is counted only when no unmatched press is outstanding, a release
cancels the outstanding press if any. -/
def netPresses (seq : List Bool) : ℕ :=
  seq.foldl (fun n e => if e then (if n = 0 then 1 else n) else 0) 0

/-- A concrete detector reporting no contacts anywhere; used to instantiate
theorems at concrete inputs. -/
def trivialDetector : CollisionDetector :=
  { contacts := fun _ => 0
    contacts_le := fun _ => Nat.zero_le _ }

/-- A concrete freshly constructed camera (identity rotation, origin,
800x600 window, speed 2); used to instantiate theorems at concrete inputs. -/
noncomputable def cam0 : PositionalCamera :=
  PositionalCamera.init trivialDetector 1 (fun _ => 0) (800, 600) 2

/-- The concrete camera cam0 after pressing the W key. -/
noncomputable def camW : PositionalCamera :=
  (cam0.press GLFW_KEY_W).1

/-! ### Basic lemmas about the key bindings -/

theorem velocity_delta_isSome_iff_mem (k : ℤ) :
    (velocity_delta k).isSome = true ↔ k ∈ boundKeys := by
  unfold velocity_delta boundKeys
  split_ifs with h1 h2 h3 h4 h5 h6 <;> simp_all

theorem replace_shift_of_bound {k : ℤ} {δ : Vec3}
    (h : velocity_delta k = some δ) : replace_shift k = k := by
  unfold velocity_delta at h
  unfold replace_shift
  split_ifs at h with h1 h2 h3 h4 h5 h6 <;>
    simp_all [GLFW_KEY_W, GLFW_KEY_A, GLFW_KEY_S, GLFW_KEY_D, GLFW_KEY_SPACE,
      GLFW_KEY_LEFT_SHIFT, GLFW_KEY_UNKNOWN]

/-! ### Frame lemmas: which fields each operation can touch -/

theorem press_fields (c : PositionalCamera) (k : ℤ) :
    (c.press k).1.rotation = c.rotation ∧
      (c.press k).1.translation = c.translation ∧
      (c.press k).1.rotation_base = c.rotation_base ∧
      (c.press k).1.size = c.size ∧
      (c.press k).1.speed = c.speed ∧
      (c.press k).1.cd = c.cd := by
  unfold PositionalCamera.press
  cases hv : velocity_delta (replace_shift k) with
  | none => simp [hv]
  | some δ => by_cases hp : c.pressed (replace_shift k) = true <;> simp [hv, hp]

theorem release_fields (c : PositionalCamera) (k : ℤ) :
    (c.release k).1.rotation = c.rotation ∧
      (c.release k).1.translation = c.translation ∧
      (c.release k).1.rotation_base = c.rotation_base ∧
      (c.release k).1.size = c.size ∧
      (c.release k).1.speed = c.speed ∧
      (c.release k).1.cd = c.cd := by
  unfold PositionalCamera.release
  cases hv : velocity_delta (replace_shift k) with
  | none => simp [hv]
  | some δ => by_cases hp : c.pressed (replace_shift k) = true <;> simp [hv, hp]

theorem pose_fields (c : PositionalCamera) (dt : ℝ) :
    (c.pose dt).rotation = c.rotation ∧
      (c.pose dt).rotation_base = c.rotation_base ∧
      (c.pose dt).size = c.size ∧
      (c.pose dt).speed = c.speed ∧
      (c.pose dt).velocity = c.velocity ∧
      (c.pose dt).pressed = c.pressed ∧
      (c.pose dt).cd = c.cd := by
  unfold PositionalCamera.pose
  by_cases h :
      c.cd.collision c.translation (c.rotation.mulVec fun i => c.velocity i * dt) =
        true <;>
    simp [h]

theorem motion_fields (c : PositionalCamera) (p : ℝ × ℝ) :
    (c.motion p).translation = c.translation ∧
      (c.motion p).rotation_base = c.rotation_base ∧
      (c.motion p).size = c.size ∧
      (c.motion p).speed = c.speed ∧
      (c.motion p).velocity = c.velocity ∧
      (c.motion p).pressed = c.pressed ∧
      (c.motion p).cd = c.cd := by
  unfold PositionalCamera.motion
  simp

theorem step_rotation_base (c : PositionalCamera) (e : Event) :
    (c.step e).rotation_base = c.rotation_base := by
  cases e with
  | press k => exact (press_fields c k).2.2.1
  | release k => exact (release_fields c k).2.2.1
  | motion p => exact (motion_fields c p).2.1
  | resize s => rfl
  | advance dt => exact (pose_fields c dt).2.1

theorem run_rotation_base (c : PositionalCamera) (es : List Event) :
    (c.run es).rotation_base = c.rotation_base := by
  induction es generalizing c with
  | nil => rfl
  | cons e es ih =>
    show ((c.step e).run es).rotation_base = c.rotation_base
    rw [ih, step_rotation_base]

theorem step_speed (c : PositionalCamera) (e : Event) :
    (c.step e).speed = c.speed := by
  cases e with
  | press k => exact (press_fields c k).2.2.2.2.1
  | release k => exact (release_fields c k).2.2.2.2.1
  | motion p => exact (motion_fields c p).2.2.2.1
  | resize s => rfl
  | advance dt => exact (pose_fields c dt).2.2.2.1

theorem run_speed (c : PositionalCamera) (es : List Event) :
    (c.run es).speed = c.speed := by
  induction es generalizing c with
  | nil => rfl
  | cons e es ih =>
    show ((c.step e).run es).speed = c.speed
    rw [ih, step_speed]

/-! ### Claim theorems: collision gating, detector, key handling, frame effects -/

/-- C1: for every camera state and every dt, pose(dt) computes the candidate
displacement dx as the rotation block applied to velocity * dt; the
translation is left unchanged when the collision query at the candidate
position t + dx reports true and becomes t + dx when it reports false; the
rotation block is unaffected either way, and the query is evaluated at
exactly the candidate new position t + dx. -/
theorem advance_collision_gated (c : PositionalCamera) (dt : ℝ) :
    (c.pose dt).translation =
      (if c.cd.collision c.translation (c.rotation.mulVec fun i => c.velocity i * dt)
        then c.translation
        else c.translation + c.rotation.mulVec fun i => c.velocity i * dt) ∧
    (c.pose dt).rotation = c.rotation ∧
    c.cd.collision c.translation (c.rotation.mulVec fun i => c.velocity i * dt) =
      decide ((c.cd.contacts
          (c.translation + c.rotation.mulVec fun i => c.velocity i * dt) : ℚ) /
            CollisionDetector.radius ≥ CollisionDetector.threshold) := by
  refine ⟨?_, (pose_fields c dt).1, rfl⟩
  unfold PositionalCamera.pose
  by_cases h :
      c.cd.collision c.translation (c.rotation.mulVec fun i => c.velocity i * dt) =
        true <;>
    simp [h]

/-- C4: the collision query reports a collision iff the contact count at the
probe position divided by the radius rho = 0.05 is at least the threshold
tau = 1000, the enumerated contact count is capped at the requested maximum
ceil(tau * rho), and that cap equals 50. -/
theorem collision_density_threshold (cd : CollisionDetector) (x dx : Vec3) :
    (cd.collision x dx = true ↔
      (cd.contacts (x + dx) : ℚ) / CollisionDetector.radius ≥
        CollisionDetector.threshold) ∧
    cd.contacts (x + dx) ≤ CollisionDetector.num_max_contacts ∧
    CollisionDetector.num_max_contacts = 50 := by
  refine ⟨?_, cd.contacts_le _, ?_⟩
  · simp [CollisionDetector.collision]
  · norm_num [CollisionDetector.num_max_contacts, CollisionDetector.threshold,
      CollisionDetector.radius]

/-- C7: a press or release carrying the reserved unknown key code behaves
exactly like a press or release of the left shift key (the Down binding):
same returned boolean and same state transition. -/
theorem unknown_key_is_left_shift (c : PositionalCamera) :
    c.press GLFW_KEY_UNKNOWN = c.press GLFW_KEY_LEFT_SHIFT ∧
    c.release GLFW_KEY_UNKNOWN = c.release GLFW_KEY_LEFT_SHIFT := by
  have h1 : replace_shift GLFW_KEY_UNKNOWN = GLFW_KEY_LEFT_SHIFT := by
    norm_num [replace_shift]
  have h2 : replace_shift GLFW_KEY_LEFT_SHIFT = GLFW_KEY_LEFT_SHIFT := by
    norm_num [replace_shift, GLFW_KEY_LEFT_SHIFT, GLFW_KEY_UNKNOWN]
  constructor <;> simp only [PositionalCamera.press, PositionalCamera.release, h1, h2]

/-- C8: constructing the collision detector from an empty point set fails
fatally (an error, not a usable instance). -/
theorem init_empty_point_set_fails (scene : List Vec3)
    (contactsOf : { l : List Vec3 // l ≠ [] } → CollisionDetector)
    (h : scene.length = 0) :
    CollisionDetector.init scene contactsOf =
      Except.error "fcl BVH construction failed: empty point set" := by
  cases scene with
  | nil => rfl
  | cons p ps => simp at h

/-- Witness for C8 at the concrete empty point set. -/
theorem init_empty_point_set_fails_witness :
    List.length ([] : List Vec3) = 0 ∧
      CollisionDetector.init ([] : List Vec3) (fun _ => trivialDetector) =
        Except.error "fcl BVH construction failed: empty point set" :=
  ⟨rfl, init_empty_point_set_fails [] (fun _ => trivialDetector) rfl⟩

/-- C10: press and release never modify the pose (rotation or translation);
motion leaves the translation column unchanged; pose(dt) leaves the rotation
block unchanged; resize modifies neither. -/
theorem pose_block_frame_effects (c : PositionalCamera) (k k' : ℤ)
    (p s : ℝ × ℝ) (dt : ℝ) :
    ((c.press k).1.rotation = c.rotation ∧
      (c.press k).1.translation = c.translation) ∧
    ((c.release k').1.rotation = c.rotation ∧
      (c.release k').1.translation = c.translation) ∧
    (c.motion p).translation = c.translation ∧
    (c.pose dt).rotation = c.rotation ∧
    ((c.resize s).rotation = c.rotation ∧
      (c.resize s).translation = c.translation) :=
  ⟨⟨(press_fields c k).1, (press_fields c k).2.1⟩,
    ⟨(release_fields c k').1, (release_fields c k').2.1⟩,
    (motion_fields c p).1, (pose_fields c dt).1, rfl, rfl⟩

/-- C6: press and release return false exactly when the normalized key code
is unbound, in which case nothing changes; for a bound code they return true
even in the no-op cases (press while already held, release while not held),
each of which leaves the state unchanged. -/
theorem press_release_return_values (c : PositionalCamera) (k : ℤ) :
    ((c.press k).2 = false ↔ velocity_delta (replace_shift k) = none) ∧
    ((c.release k).2 = false ↔ velocity_delta (replace_shift k) = none) ∧
    (velocity_delta (replace_shift k) = none →
      (c.press k).1 = c ∧ (c.release k).1 = c) ∧
    (c.pressed (replace_shift k) = true → (c.press k).1 = c) ∧
    (c.pressed (replace_shift k) = false → (c.release k).1 = c) := by
  unfold PositionalCamera.press PositionalCamera.release
  cases hv : velocity_delta (replace_shift k) with
  | none => simp [hv]
  | some δ => by_cases hp : c.pressed (replace_shift k) = true <;> simp [hv, hp]

/-- Witness for C6: an unbound code (0) is a rejected no-op on the fresh
camera, releasing W while not held is an accepted no-op, and pressing W
while already held is an accepted no-op. -/
theorem press_release_return_values_witness :
    (velocity_delta (replace_shift 0) = none ∧
      (cam0.press 0).1 = cam0 ∧ (cam0.release 0).1 = cam0) ∧
    (cam0.pressed (replace_shift 87) = false ∧ (cam0.release 87).1 = cam0) ∧
    (camW.pressed (replace_shift 87) = true ∧ (camW.press 87).1 = camW) := by
  have h0 : velocity_delta (replace_shift 0) = none := by
    norm_num [velocity_delta, replace_shift, GLFW_KEY_UNKNOWN, GLFW_KEY_W,
      GLFW_KEY_A, GLFW_KEY_S, GLFW_KEY_D, GLFW_KEY_SPACE, GLFW_KEY_LEFT_SHIFT]
  have hp : cam0.pressed (replace_shift 87) = false := rfl
  have hw : camW.pressed (replace_shift 87) = true := by
    norm_num [camW, cam0, PositionalCamera.press, PositionalCamera.init,
      velocity_delta, replace_shift, GLFW_KEY_UNKNOWN, GLFW_KEY_W]
  exact ⟨⟨h0, ((press_release_return_values cam0 0).2.2.1 h0).1,
      ((press_release_return_values cam0 0).2.2.1 h0).2⟩,
    ⟨hp, (press_release_return_values cam0 87).2.2.2.2 hp⟩,
    ⟨hw, (press_release_return_values camW 87).2.2.2.1 hw⟩⟩

/-! ### Orientation: purity and orthonormality -/

/-- C2: after any prior event history, a pointer-motion event sets the
rotation block to RotationBase * RotY(yaw) * RotX(pitch) with
yaw = pi - 2 pi px / W and pitch = pi / 2 - pi py / H (W, H the current
viewport size, positive), where RotationBase is the rotation snapshot taken
at construction; the result depends only on that snapshot, the pointer
coordinate and the viewport size, and out-of-range coordinates are not
clamped (the formula applies to every coordinate). -/
theorem motion_rotation_formula (cd : CollisionDetector) (R : Mat3) (t : Vec3)
    (s : ℝ × ℝ) (sp : ℝ) (es : List Event) (p : ℝ × ℝ)
    (hW : 0 < ((PositionalCamera.init cd R t s sp).run es).size.1)
    (hH : 0 < ((PositionalCamera.init cd R t s sp).run es).size.2) :
    (((PositionalCamera.init cd R t s sp).run es).motion p).rotation =
      R *
        rotY (Real.pi - Real.pi * 2 * p.1 /
          ((PositionalCamera.init cd R t s sp).run es).size.1) *
        rotX (Real.pi / 2 - Real.pi * p.2 /
          ((PositionalCamera.init cd R t s sp).run es).size.2) := by
  have hb := run_rotation_base (PositionalCamera.init cd R t s sp) es
  unfold PositionalCamera.motion
  simp only [hb]
  rfl

/-- Witness for C2 on a fresh camera with an 800x600 viewport. -/
theorem motion_rotation_formula_witness :
    (0 : ℝ) <
      ((PositionalCamera.init trivialDetector 1 (fun _ => 0) (800, 600) 2).run
        []).size.1 ∧
    (0 : ℝ) <
      ((PositionalCamera.init trivialDetector 1 (fun _ => 0) (800, 600) 2).run
        []).size.2 ∧
    (((PositionalCamera.init trivialDetector 1 (fun _ => 0) (800, 600) 2).run
        []).motion (200, 150)).rotation =
      1 *
        rotY (Real.pi - Real.pi * 2 * (200 : ℝ) /
          ((PositionalCamera.init trivialDetector 1 (fun _ => 0) (800, 600) 2).run
            []).size.1) *
        rotX (Real.pi / 2 - Real.pi * (150 : ℝ) /
          ((PositionalCamera.init trivialDetector 1 (fun _ => 0) (800, 600) 2).run
            []).size.2) := by
  refine ⟨?_, ?_, ?_⟩
  · norm_num [PositionalCamera.run, PositionalCamera.init]
  · norm_num [PositionalCamera.run, PositionalCamera.init]
  · exact motion_rotation_formula trivialDetector 1 (fun _ => 0) (800, 600) 2 []
      (200, 150)
      (by norm_num [PositionalCamera.run, PositionalCamera.init])
      (by norm_num [PositionalCamera.run, PositionalCamera.init])

theorem rotY_transpose_mul (a : ℝ) : (rotY a)ᵀ * rotY a = 1 := by
  have h := Real.sin_sq_add_cos_sq a
  ext i j
  fin_cases i <;> fin_cases j <;>
    simp only [rotY, Matrix.mul_apply, Matrix.transpose_apply, Fin.sum_univ_three,
      Matrix.cons_val', Matrix.cons_val_zero, Matrix.cons_val_one, Matrix.head_cons,
      Matrix.head_fin_const, Matrix.empty_val', Matrix.cons_val_fin_one,
      Matrix.one_apply, Fin.isValue, Matrix.cons_val_two, Matrix.tail_cons] <;>
    norm_num [Fin.ext_iff, Matrix.vecHead, Matrix.vecTail] <;>
    nlinarith [h]

theorem rotX_transpose_mul (a : ℝ) : (rotX a)ᵀ * rotX a = 1 := by
  have h := Real.sin_sq_add_cos_sq a
  ext i j
  fin_cases i <;> fin_cases j <;>
    simp only [rotX, Matrix.mul_apply, Matrix.transpose_apply, Fin.sum_univ_three,
      Matrix.cons_val', Matrix.cons_val_zero, Matrix.cons_val_one, Matrix.head_cons,
      Matrix.head_fin_const, Matrix.empty_val', Matrix.cons_val_fin_one,
      Matrix.one_apply, Fin.isValue, Matrix.cons_val_two, Matrix.tail_cons] <;>
    norm_num [Fin.ext_iff, Matrix.vecHead, Matrix.vecTail] <;>
    nlinarith [h]

theorem orth_mul {A B : Mat3} (hA : Aᵀ * A = 1) (hB : Bᵀ * B = 1) :
    (A * B)ᵀ * (A * B) = 1 := by
  rw [Matrix.transpose_mul, mul_assoc, ← mul_assoc Aᵀ A B, hA, one_mul, hB]

theorem step_rotation_orth (c : PositionalCamera) (e : Event)
    (hR : c.rotationᵀ * c.rotation = 1)
    (hB : c.rotation_baseᵀ * c.rotation_base = 1) :
    (c.step e).rotationᵀ * (c.step e).rotation = 1 := by
  cases e with
  | press k =>
    show ((c.press k).1.rotation)ᵀ * (c.press k).1.rotation = 1
    rw [(press_fields c k).1]; exact hR
  | release k =>
    show ((c.release k).1.rotation)ᵀ * (c.release k).1.rotation = 1
    rw [(release_fields c k).1]; exact hR
  | advance dt =>
    show ((c.pose dt).rotation)ᵀ * (c.pose dt).rotation = 1
    rw [(pose_fields c dt).1]; exact hR
  | resize s => exact hR
  | motion p =>
    show ((c.motion p).rotation)ᵀ * (c.motion p).rotation = 1
    unfold PositionalCamera.motion
    exact orth_mul (orth_mul hB (rotY_transpose_mul _)) (rotX_transpose_mul _)

theorem run_rotation_orth (c : PositionalCamera) (es : List Event)
    (hR : c.rotationᵀ * c.rotation = 1)
    (hB : c.rotation_baseᵀ * c.rotation_base = 1) :
    (c.run es).rotationᵀ * (c.run es).rotation = 1 := by
  induction es generalizing c with
  | nil => exact hR
  | cons e es ih =>
    show ((c.step e).run es).rotationᵀ * ((c.step e).run es).rotation = 1
    exact ih (c.step e) (step_rotation_orth c e hR hB)
      (by rw [step_rotation_base]; exact hB)

/-- C9: if the construction-time rotation base has orthonormal columns then
after any sequence of events the rotation block still has orthonormal
columns (unit length, mutually perpendicular) — exactly, with no drift, for
sequences of any length. -/
theorem rotation_orthonormal_over_events (cd : CollisionDetector) (R : Mat3)
    (t : Vec3) (s : ℝ × ℝ) (sp : ℝ) (es : List Event)
    (h : ∀ i j, (∑ l, R l i * R l j) = if i = j then (1 : ℝ) else 0) :
    ∀ i j,
      (∑ l, ((PositionalCamera.init cd R t s sp).run es).rotation l i *
        ((PositionalCamera.init cd R t s sp).run es).rotation l j) =
      if i = j then (1 : ℝ) else 0 := by
  have hmat : Rᵀ * R = 1 := by
    ext i j
    simpa [Matrix.mul_apply, Matrix.one_apply] using h i j
  have hrun := run_rotation_orth (PositionalCamera.init cd R t s sp) es hmat hmat
  intro i j
  have := congrArg (fun M => M i j) hrun
  simpa [Matrix.mul_apply, Matrix.one_apply] using this

/-- Witness for C9: the identity rotation base, one motion event. -/
theorem rotation_orthonormal_over_events_witness :
    (∀ i j, (∑ l, (1 : Mat3) l i * (1 : Mat3) l j) = if i = j then (1 : ℝ) else 0) ∧
    ∀ i j,
      (∑ l,
        ((PositionalCamera.init trivialDetector 1 (fun _ => 0) (800, 600) 2).run
            [Event.motion (200, 150)]).rotation l i *
          ((PositionalCamera.init trivialDetector 1 (fun _ => 0) (800, 600) 2).run
            [Event.motion (200, 150)]).rotation l j) =
        if i = j then (1 : ℝ) else 0 := by
  have h : ∀ i j : Fin 3,
      (∑ l, (1 : Mat3) l i * (1 : Mat3) l j) = if i = j then (1 : ℝ) else 0 := by
    intro i j
    fin_cases i <;> fin_cases j <;>
      simp [Matrix.one_apply, Fin.sum_univ_three]
  exact ⟨h, rotation_orthonormal_over_events trivialDetector 1 (fun _ => 0)
    (800, 600) 2 [Event.motion (200, 150)] h⟩

/-! ### Characterizing press and release -/

theorem press_eq_of_none {c : PositionalCamera} {k : ℤ}
    (hv : velocity_delta (replace_shift k) = none) : (c.press k).1 = c := by
  simp [PositionalCamera.press, hv]

theorem release_eq_of_none {c : PositionalCamera} {k : ℤ}
    (hv : velocity_delta (replace_shift k) = none) : (c.release k).1 = c := by
  simp [PositionalCamera.release, hv]

theorem press_eq_of_pressed {c : PositionalCamera} {k : ℤ} {δ : Vec3}
    (hv : velocity_delta (replace_shift k) = some δ)
    (hp : c.pressed (replace_shift k) = true) : (c.press k).1 = c := by
  simp [PositionalCamera.press, hv, hp]

theorem release_eq_of_not_pressed {c : PositionalCamera} {k : ℤ} {δ : Vec3}
    (hv : velocity_delta (replace_shift k) = some δ)
    (hp : c.pressed (replace_shift k) = false) : (c.release k).1 = c := by
  simp [PositionalCamera.release, hv, hp]

theorem press_eq_of_not_pressed {c : PositionalCamera} {k : ℤ} {δ : Vec3}
    (hv : velocity_delta (replace_shift k) = some δ)
    (hp : c.pressed (replace_shift k) = false) :
    (c.press k).1 =
      { c with
          velocity := fun i => c.velocity i + δ i * c.speed
          pressed := fun j => if j = replace_shift k then true else c.pressed j } := by
  simp [PositionalCamera.press, hv, hp]

theorem release_eq_of_pressed {c : PositionalCamera} {k : ℤ} {δ : Vec3}
    (hv : velocity_delta (replace_shift k) = some δ)
    (hp : c.pressed (replace_shift k) = true) :
    (c.release k).1 =
      { c with
          velocity := fun i => c.velocity i - δ i * c.speed
          pressed := fun j => if j = replace_shift k then false else c.pressed j } := by
  simp [PositionalCamera.release, hv, hp]

/-! ### The velocity invariant -/

theorem directionOf_eq {k : ℤ} {δ : Vec3} (hv : velocity_delta k = some δ) :
    directionOf k = δ := by
  simp [directionOf, hv]

theorem press_velocity_invariant (c : PositionalCamera) (k : ℤ)
    (h : c.velocity =
      c.speed • ∑ j in boundKeys.filter (fun j => c.pressed j = true), directionOf j) :
    (c.press k).1.velocity =
      (c.press k).1.speed •
        ∑ j in boundKeys.filter (fun j => (c.press k).1.pressed j = true),
          directionOf j := by
  cases hv : velocity_delta (replace_shift k) with
  | none => rw [press_eq_of_none hv]; exact h
  | some δ =>
    by_cases hp : c.pressed (replace_shift k) = true
    · rw [press_eq_of_pressed hv hp]; exact h
    · rw [press_eq_of_not_pressed hv (Bool.not_eq_true _ ▸ hp)]
      have hkmem : replace_shift k ∈ boundKeys :=
        (velocity_delta_isSome_iff_mem _).1 (by simp [hv])
      have hnotmem :
          replace_shift k ∉ boundKeys.filter (fun j => c.pressed j = true) := by
        simp [Finset.mem_filter, hp]
      have hfilter :
          boundKeys.filter
              (fun j => (if j = replace_shift k then true else c.pressed j) = true) =
            insert (replace_shift k)
              (boundKeys.filter (fun j => c.pressed j = true)) := by
        ext j
        by_cases hj : j = replace_shift k
        · subst hj; simp [hkmem, Finset.mem_filter, Finset.mem_insert]
        · simp [hj, Finset.mem_filter, Finset.mem_insert]
      simp only [hfilter]
      rw [Finset.sum_insert hnotmem, directionOf_eq hv]
      funext i
      rw [h]
      simp only [Pi.smul_apply, Pi.add_apply, smul_eq_mul]
      ring

theorem release_velocity_invariant (c : PositionalCamera) (k : ℤ)
    (h : c.velocity =
      c.speed • ∑ j in boundKeys.filter (fun j => c.pressed j = true), directionOf j) :
    (c.release k).1.velocity =
      (c.release k).1.speed •
        ∑ j in boundKeys.filter (fun j => (c.release k).1.pressed j = true),
          directionOf j := by
  cases hv : velocity_delta (replace_shift k) with
  | none => rw [release_eq_of_none hv]; exact h
  | some δ =>
    by_cases hp : c.pressed (replace_shift k) = true
    · rw [release_eq_of_pressed hv hp]
      have hmem :
          replace_shift k ∈ boundKeys.filter (fun j => c.pressed j = true) := by
        exact Finset.mem_filter.2
          ⟨(velocity_delta_isSome_iff_mem _).1 (by simp [hv]), hp⟩
      have hfilter :
          boundKeys.filter
              (fun j => (if j = replace_shift k then false else c.pressed j) = true) =
            (boundKeys.filter (fun j => c.pressed j = true)).erase
              (replace_shift k) := by
        ext j
        by_cases hj : j = replace_shift k
        · subst hj; simp [Finset.mem_filter, Finset.mem_erase]
        · simp [hj, Finset.mem_filter, Finset.mem_erase]
      simp only [hfilter]
      have hsum := Finset.sum_erase_add
        (boundKeys.filter (fun j => c.pressed j = true)) directionOf hmem
      have hsum' :
          ∑ j in (boundKeys.filter (fun j => c.pressed j = true)).erase
              (replace_shift k), directionOf j =
            (∑ j in boundKeys.filter (fun j => c.pressed j = true),
              directionOf j) - directionOf (replace_shift k) := by
        rw [← hsum]; abel
      rw [hsum', directionOf_eq hv]
      funext i
      rw [h]
      simp only [Pi.smul_apply, Pi.sub_apply, smul_eq_mul]
      ring
    · rw [release_eq_of_not_pressed hv (Bool.not_eq_true _ ▸ hp)]; exact h

theorem step_velocity_invariant (c : PositionalCamera) (e : Event)
    (h : c.velocity =
      c.speed • ∑ j in boundKeys.filter (fun j => c.pressed j = true), directionOf j) :
    (c.step e).velocity =
      (c.step e).speed •
        ∑ j in boundKeys.filter (fun j => (c.step e).pressed j = true),
          directionOf j := by
  cases e with
  | press k => exact press_velocity_invariant c k h
  | release k => exact release_velocity_invariant c k h
  | motion p =>
    show (c.motion p).velocity =
      (c.motion p).speed •
        ∑ j in boundKeys.filter (fun j => (c.motion p).pressed j = true),
          directionOf j
    rw [(motion_fields c p).2.2.2.2.1, (motion_fields c p).2.2.2.1]
    simp only [(motion_fields c p).2.2.2.2.2.1]
    exact h
  | resize s => exact h
  | advance dt =>
    show (c.pose dt).velocity =
      (c.pose dt).speed •
        ∑ j in boundKeys.filter (fun j => (c.pose dt).pressed j = true),
          directionOf j
    rw [(pose_fields c dt).2.2.2.2.1, (pose_fields c dt).2.2.2.1]
    simp only [(pose_fields c dt).2.2.2.2.2.1]
    exact h

theorem run_velocity_invariant (c : PositionalCamera) (es : List Event)
    (h : c.velocity =
      c.speed • ∑ j in boundKeys.filter (fun j => c.pressed j = true), directionOf j) :
    (c.run es).velocity =
      (c.run es).speed •
        ∑ j in boundKeys.filter (fun j => (c.run es).pressed j = true),
          directionOf j := by
  induction es generalizing c with
  | nil => exact h
  | cons e es ih =>
    show ((c.step e).run es).velocity = _
    exact ih (c.step e) (step_velocity_invariant c e h)

/-- C3: in every state reachable from construction, the velocity equals the
speed times the sum of the direction vectors of exactly the currently held
keys (zero at construction); moreover every press/release transition changes
the velocity by adding or subtracting at most one speed-scaled direction
vector. -/
theorem velocity_is_speed_times_held_directions (cd : CollisionDetector)
    (R : Mat3) (t : Vec3) (s : ℝ × ℝ) (sp : ℝ) (es : List Event) :
    (((PositionalCamera.init cd R t s sp).run es).velocity =
      ((PositionalCamera.init cd R t s sp).run es).speed •
        ∑ j in boundKeys.filter
          (fun j => ((PositionalCamera.init cd R t s sp).run es).pressed j = true),
          directionOf j) ∧
    (∀ d : PositionalCamera, ∀ k : ℤ,
      ((d.press k).1.velocity = d.velocity ∨
        (d.press k).1.velocity =
          d.velocity + d.speed • directionOf (replace_shift k)) ∧
      ((d.release k).1.velocity = d.velocity ∨
        (d.release k).1.velocity =
          d.velocity - d.speed • directionOf (replace_shift k))) := by
  constructor
  · apply run_velocity_invariant
    funext i
    simp [PositionalCamera.init]
  · intro d k
    constructor
    · cases hv : velocity_delta (replace_shift k) with
      | none => left; rw [press_eq_of_none hv]
      | some δ =>
        by_cases hp : d.pressed (replace_shift k) = true
        · left; rw [press_eq_of_pressed hv hp]
        · right
          rw [press_eq_of_not_pressed hv (Bool.not_eq_true _ ▸ hp),
            directionOf_eq hv]
          funext i
          simp only [Pi.add_apply, Pi.smul_apply, smul_eq_mul]
          ring
    · cases hv : velocity_delta (replace_shift k) with
      | none => left; rw [release_eq_of_none hv]
      | some δ =>
        by_cases hp : d.pressed (replace_shift k) = true
        · right
          rw [release_eq_of_pressed hv hp, directionOf_eq hv]
          funext i
          simp only [Pi.sub_apply, Pi.smul_apply, smul_eq_mul]
          ring
        · left; rw [release_eq_of_not_pressed hv (Bool.not_eq_true _ ▸ hp)]

/-! ### Single-direction press/release sequences -/

theorem run_cons (c : PositionalCamera) (e : Event) (es : List Event) :
    c.run (e :: es) = (c.step e).run es := rfl

theorem netPresses_eq (seq : List Bool) :
    netPresses seq = if seq.getLast? = some true then 1 else 0 := by
  induction seq using List.reverseRecOn with
  | nil => rfl
  | append_singleton l e ih =>
    unfold netPresses at ih ⊢
    rw [List.foldl_append, List.getLast?_concat]
    cases e with
    | true =>
      rw [show ∀ m : ℕ, List.foldl
          (fun n e => if e then (if n = 0 then 1 else n) else 0) m [true] =
          if m = 0 then 1 else m from fun m => rfl]
      rw [ih]
      by_cases hl : l.getLast? = some true <;> simp [hl]
    | false => simp

theorem foldl_last (seq : List Bool) (b : Bool) :
    seq.foldl (fun _ e => e) b = seq.getLast?.getD b := by
  induction seq using List.reverseRecOn with
  | nil => rfl
  | append_singleton l e ih =>
    rw [List.foldl_append, List.getLast?_concat]
    rfl

theorem run_single_key (k : ℤ) (δ : Vec3) (hk : velocity_delta k = some δ)
    (seq : List Bool) :
    ∀ (c : PositionalCamera) (b : Bool), c.pressed k = b →
      c.velocity = (if b then (fun i => δ i * c.speed) else fun _ => 0) →
      ((c.run (seq.map fun e => if e then Event.press k else Event.release k)).pressed
          k = seq.foldl (fun _ e => e) b) ∧
      ((c.run (seq.map fun e => if e then Event.press k else Event.release k)).speed =
        c.speed) ∧
      ((c.run (seq.map fun e => if e then Event.press k else Event.release k)).velocity =
        if seq.foldl (fun _ e => e) b then (fun i => δ i * c.speed)
        else fun _ => 0) := by
  have hrs : replace_shift k = k := replace_shift_of_bound hk
  have hk' : velocity_delta (replace_shift k) = some δ := by rw [hrs]; exact hk
  induction seq with
  | nil => intro c b hp hv; exact ⟨hp, rfl, hv⟩
  | cons e seq ih =>
    intro c b hp hv
    rw [List.map_cons]
    cases e with
    | true =>
      simp only [if_true, run_cons, PositionalCamera.step]
      cases b with
      | true =>
        rw [press_eq_of_pressed hk' (by rw [hrs]; exact hp)]
        simpa using ih c true hp (by simpa using hv)
      | false =>
        rw [press_eq_of_not_pressed hk' (by rw [hrs]; exact hp)]
        have hres := ih
          { c with
              velocity := fun i => c.velocity i + δ i * c.speed
              pressed := fun j => if j = replace_shift k then true else c.pressed j }
          true (by simp [hrs])
          (by
            funext i
            rw [hv]
            simp)
        simpa using hres
    | false =>
      simp only [Bool.false_eq_true, if_false, run_cons, PositionalCamera.step]
      cases b with
      | true =>
        rw [release_eq_of_pressed hk' (by rw [hrs]; exact hp)]
        have hres := ih
          { c with
              velocity := fun i => c.velocity i - δ i * c.speed
              pressed := fun j => if j = replace_shift k then false else c.pressed j }
          false (by simp [hrs])
          (by
            funext i
            rw [hv]
            simp)
        simpa using hres
      | false =>
        rw [release_eq_of_not_pressed hk' (by rw [hrs]; exact hp)]
        simpa using ih c false hp (by simpa using hv)

/-- C5: for any sequence of press (true) and release (false) events on one
bound key, starting from construction, the resulting velocity equals speed
times the key's direction vector when the number of net unmatched presses is
odd (equivalently one, i.e. the sequence ends in a press) and zero
otherwise, however many redundant presses or releases are interleaved. -/
theorem single_direction_parity (cd : CollisionDetector) (R : Mat3) (t : Vec3)
    (s : ℝ × ℝ) (sp : ℝ) (k : ℤ) (δ : Vec3) (hk : velocity_delta k = some δ)
    (seq : List Bool) :
    ((PositionalCamera.init cd R t s sp).run
        (seq.map fun e => if e then Event.press k else Event.release k)).velocity =
      if Odd (netPresses seq) then sp • δ else 0 := by
  have h := (run_single_key k δ hk seq (PositionalCamera.init cd R t s sp) false
    rfl (by rfl)).2.2
  rw [h, foldl_last, netPresses_eq]
  cases hl : seq.getLast? with
  | none =>
    simp only [Option.getD_none]
    norm_num
    rfl
  | some e =>
    cases e with
    | true =>
      simp only [Option.getD_some, if_true]
      norm_num
      funext i
      simp [PositionalCamera.init, mul_comm]
    | false =>
      simp only [Option.getD_some]
      norm_num
      rfl

/-- Witness for C5: pressing W twice (a redundant second press) yields
velocity speed * (0, 0, -1); the net press count is 1, which is odd. -/
theorem single_direction_parity_witness :
    velocity_delta 87 = some ![0, 0, -1] ∧
      ((PositionalCamera.init trivialDetector 1 (fun _ => 0) (800, 600) 2).run
          ([true, true].map fun e =>
            if e then Event.press 87 else Event.release 87)).velocity =
        if Odd (netPresses [true, true]) then (2 : ℝ) • ![0, 0, -1] else 0 := by
  have hk : velocity_delta 87 = some ![0, 0, -1] := by
    norm_num [velocity_delta, GLFW_KEY_W]
  exact ⟨hk, single_direction_parity trivialDetector 1 (fun _ => 0) (800, 600) 2
    87 ![0, 0, -1] hk [true, true]⟩
